import Mathlib

/-!
Shallow embedding of the Citra input core (src/input_core/input_core.cpp):
the mapping-table builder, the analog deadzone normalizer, the digital
edge detector, the tick update, the settings reload, and the
detect-next-input protocol.  C++ `float` values are modelled as real
numbers; the wall clock of the detection loop is modelled as a finite
list of poll rounds.
-/

/-- Modelled from the spec: virtual pad bit for circle-pad Right
(`Service::HID::PAD_CIRCLE_RIGHT`; hid.h is not included under src/). -/
def PAD_CIRCLE_RIGHT : ℕ := 2 ^ 28

/-- Modelled from the spec: virtual pad bit for circle-pad Left. -/
def PAD_CIRCLE_LEFT : ℕ := 2 ^ 29

/-- Modelled from the spec: virtual pad bit for circle-pad Up. -/
def PAD_CIRCLE_UP : ℕ := 2 ^ 30

/-- Modelled from the spec: virtual pad bit for circle-pad Down. -/
def PAD_CIRCLE_DOWN : ℕ := 2 ^ 31

/-- Modelled from the spec: the "analog-contributing" subset of logical
targets, the four primary-stick directions (`KeyMap::analog_inputs`;
keymap.h is not included under src/). -/
def analog_inputs : List ℕ :=
  [PAD_CIRCLE_UP, PAD_CIRCLE_DOWN, PAD_CIRCLE_LEFT, PAD_CIRCLE_RIGHT]

/-- Modelled from the spec: the fixed full-scale constant for the
circle-pad cache (`KeyMap::MAX_CIRCLEPAD_POS = 0x9C`). -/
def MAX_CIRCLEPAD_POS : ℤ := 156

/-- Modelled from the spec: the fixed detection-threshold constant
(`input_detect_threshold`, declared in input_core.h, not under src/). -/
noncomputable def input_detect_threshold : ℝ := 9 / 20

/-- The local variable `magnitude` of `InputCore::ApplyDeadzone`:
`std::sqrt((x * x) + (y * y))`. -/
noncomputable def magnitude (x y : ℝ) : ℝ := Real.sqrt (x * x + y * y)

/-- The function `InputCore::ApplyDeadzone` (input_core.cpp lines 253-265). -/
noncomputable def ApplyDeadzone (x y dead_zone : ℝ) : ℝ × ℝ :=
  if magnitude x y < dead_zone then (0, 0)
  else
    ((x / magnitude x y) * ((magnitude x y - dead_zone) / (1 - dead_zone)),
     (y / magnitude x y) * ((magnitude x y - dead_zone) / (1 - dead_zone)))

/-- C3: for every input (x, y) and every deadzone in [0, 1), if the
magnitude sqrt(x^2 + y^2) is below the deadzone, `ApplyDeadzone`
returns exactly (0, 0). -/
theorem applyDeadzone_inside_deadzone_is_zero (x y dead_zone : ℝ)
    (h0 : 0 ≤ dead_zone) (h1 : dead_zone < 1)
    (hm : magnitude x y < dead_zone) :
    ApplyDeadzone x y dead_zone = (0, 0) := by
  unfold ApplyDeadzone
  exact if_pos hm

/-- Witness for C3 at the concrete input (0, 0) with deadzone 1/2. -/
theorem applyDeadzone_inside_deadzone_is_zero_witness :
    ApplyDeadzone 0 0 (1 / 2) = (0, 0) :=
  applyDeadzone_inside_deadzone_is_zero 0 0 (1 / 2) (by norm_num)
    (by norm_num)
    (by unfold magnitude; rw [show ((0:ℝ) * 0 + 0 * 0) = 0 by ring,
          Real.sqrt_zero]; norm_num)

/-- C10: in the rescaling branch of `ApplyDeadzone` (taken when the
magnitude is not below the deadzone) every division is by the magnitude;
for any dead_zone > 0 that divisor is nonzero, and the precondition is
necessary: at dead_zone = 0 with input (0, 0) the rescaling branch is
taken while the magnitude, hence the divisor, equals 0. -/
theorem applyDeadzone_divisor_safety :
    (∀ x y dead_zone : ℝ, 0 < dead_zone → ¬ magnitude x y < dead_zone →
        magnitude x y ≠ 0) ∧
    (∀ x y dead_zone : ℝ, ¬ magnitude x y < dead_zone →
        ApplyDeadzone x y dead_zone =
          ((x / magnitude x y) * ((magnitude x y - dead_zone) / (1 - dead_zone)),
           (y / magnitude x y) * ((magnitude x y - dead_zone) / (1 - dead_zone)))) ∧
    ¬ magnitude 0 0 < (0 : ℝ) ∧ magnitude 0 0 = 0 := by
  refine ⟨?_, ?_, ?_, ?_⟩
  · intro x y dead_zone hdz hm
    have h := le_of_not_lt hm
    have : (0 : ℝ) < magnitude x y := lt_of_lt_of_le hdz h
    exact ne_of_gt this
  · intro x y dead_zone hm
    unfold ApplyDeadzone
    exact if_neg hm
  · have : magnitude 0 0 = 0 := by
      unfold magnitude
      rw [show ((0:ℝ) * 0 + 0 * 0) = 0 by ring, Real.sqrt_zero]
    rw [this]; norm_num
  · unfold magnitude
    rw [show ((0:ℝ) * 0 + 0 * 0) = 0 by ring, Real.sqrt_zero]

/-- Witness for C10 at the concrete input (1, 0) with dead_zone 1/2. -/
theorem applyDeadzone_divisor_safety_witness : magnitude 1 0 ≠ 0 :=
  applyDeadzone_divisor_safety.1 1 0 (1 / 2) (by norm_num)
    (by unfold magnitude
        rw [show ((1:ℝ) * 1 + 0 * 0) = 1 by ring, Real.sqrt_one]
        norm_num)

/-- Lookup in an association-list model of `std::map<K, bool>`, with the
value-initialized default `false` that `operator[]` produces. -/
def mapGetD (m : List (ℕ × Bool)) (k : ℕ) : Bool :=
  (m.lookup k).getD false

/-- Assignment `m[k] = v` on the association-list map model: replaces the
existing entry or inserts a new one. -/
def mapSet (m : List (ℕ × Bool)) (k : ℕ) (v : Bool) : List (ℕ × Bool) :=
  match m with
  | [] => [(k, v)]
  | (a, b) :: rest => if a = k then (k, v) :: rest else (a, b) :: mapSet rest k v

/-- The default-insertion a `std::map::operator[]` read performs: if the
key is absent, the entry (k, false) is inserted. -/
def mapIndex (m : List (ℕ × Bool)) (k : ℕ) : List (ℕ × Bool) :=
  if (m.lookup k).isSome then m else m ++ [(k, false)]

/-- Emplace on the map model (`std::map::emplace`): inserts only when the key is absent (the first
occurrence wins). -/
def mapEmplace (m : List (ℕ × Bool)) (k : ℕ) (v : Bool) : List (ℕ × Bool) :=
  if (m.lookup k).isSome then m else m ++ [(k, v)]

/-- Bitwise complement of a pad bit inside a `u32`, as in
`~emulator_input.hex`. -/
def u32not (t : ℕ) : ℕ := Nat.xor t (2 ^ 32 - 1)

/-- The fields of `Settings::values` that input_core.cpp reads, together
with `KeyMap::mapping_targets` (the fixed per-slot logical-target table;
keymap.h is not under src/, its table is carried here alongside the
settings it is indexed in lockstep with). -/
structure SettingsValues where
  input_mappings : List ℕ
  mapping_targets : List ℕ
  pad_circle_modifier : ℕ
  pad_circle_modifier_scale : ℝ
  pad_circle_deadzone : ℝ

/-- The mutable state of `InputCore` that the modelled operations touch:
the pad bitfield, the pressed latch, the circle-pad cache, the key
mapping table (`std::map` with `operator[]` defaulting to an empty
vector), and the device registry (each handle identified by the unique
mapping that spawned it). -/
structure EngineState where
  pad_state : ℕ
  keys_pressed : List (ℕ × Bool)
  circle_pad : ℤ × ℤ
  key_mappings : ℕ → List ℕ
  devices : List ℕ

/-- The method `InputCore::BuildKeyMapping`: clears the table, then for each slot i
does `emplace(key, {})` followed by `key_mappings[key].push_back(val)`,
so a repeated key accumulates targets in slot order. -/
def BuildKeyMapping (input_mappings mapping_targets : List ℕ) : ℕ → List ℕ :=
  (input_mappings.zip mapping_targets).foldl
    (fun km kv => fun q => if q = kv.1 then km kv.1 ++ [kv.2] else km q)
    (fun _ => [])

/-- The method `InputCore::GatherUniqueMappings`: deduplicates the configured
mappings and always adds the circle-pad modifier mapping.  (The sorted
iteration order of the `std::set` is abstracted as insertion order; no
modelled claim depends on the order.) -/
def GatherUniqueMappings (s : SettingsValues) : List ℕ :=
  let u := s.input_mappings.foldl
    (fun acc m => if m ∈ acc then acc else acc ++ [m]) []
  if s.pad_circle_modifier ∈ u then u else u ++ [s.pad_circle_modifier]

/-- The method `InputCore::GenerateUniqueDevices`: clears the registry and creates
one device handle per unique mapping (driver construction is external;
a handle is identified by its mapping). -/
def GenerateUniqueDevices (s : SettingsValues) : List ℕ :=
  GatherUniqueMappings s

/-- The method `InputCore::ReloadSettings`: returns immediately when no devices are
registered; otherwise clears the registry and re-runs `ParseSettings`
(= `GenerateUniqueDevices` then `BuildKeyMapping`) under the pad-state
lock.  Nothing else in the state is touched. -/
def ReloadSettings (s : SettingsValues) (st : EngineState) : EngineState :=
  if st.devices = [] then st
  else { st with
    devices := GenerateUniqueDevices s,
    key_mappings := BuildKeyMapping s.input_mappings s.mapping_targets }

/-- One configured-button entry of the analog pass of
`InputCore::UpdateEmulatorInputs`: the inner loop over the entry's
mapped targets updates the raw (left_x, left_y) pair (skipping all
targets when the strength is exactly 0), then the circle-pad-modifier
check updates the modifier factor.  Accumulator: (left_x, left_y,
circle_pad_modifier). -/
noncomputable def analogEntryStep (s : SettingsValues) (km : ℕ → List ℕ)
    (acc : ℝ × ℝ × ℝ) (e : ℕ × ℝ) : ℝ × ℝ × ℝ :=
  let xy := (km e.1).foldl
    (fun (p : ℝ × ℝ) t =>
      if e.2 = 0 then p
      else if t = PAD_CIRCLE_UP then (p.1, -e.2)
      else if t = PAD_CIRCLE_DOWN then (p.1, e.2)
      else if t = PAD_CIRCLE_LEFT then (-e.2, p.2)
      else if t = PAD_CIRCLE_RIGHT then (e.2, p.2)
      else p)
    (acc.1, acc.2.1)
  let m := if e.1 = s.pad_circle_modifier then
      (if e.2 > input_detect_threshold then s.pad_circle_modifier_scale else 1)
    else acc.2.2
  (xy.1, xy.2, m)

/-- The analog pass of `InputCore::UpdateEmulatorInputs` (lines 64-93):
fold over every device's sample map, starting from left_x = 0,
left_y = 0, circle_pad_modifier = 1. -/
noncomputable def analogPass (s : SettingsValues) (km : ℕ → List ℕ)
    (inputs : List (List (ℕ × ℝ))) : ℝ × ℝ × ℝ :=
  inputs.foldl (fun acc dev => dev.foldl (analogEntryStep s km) acc) (0, 0, 1)

/-- One step of the edge detector (input_core.cpp lines 109-120) for a
single mapped target: skip analog targets; otherwise read the latch
(`operator[]` inserts a default-false entry), clear the bit on a
falling edge, set it on a rising edge, else leave both unchanged.
State: (pad_state, keys_pressed). -/
noncomputable def edgeStep (st : ℕ × List (ℕ × Bool)) (strength : ℝ)
    (target : ℕ) : ℕ × List (ℕ × Bool) :=
  if target ∈ analog_inputs then st
  else if |strength| < input_detect_threshold ∧
      mapGetD (mapIndex st.2 target) target = true then
    (Nat.land st.1 (u32not target), mapSet (mapIndex st.2 target) target false)
  else if input_detect_threshold ≤ |strength| ∧
      mapGetD (mapIndex st.2 target) target = false then
    (Nat.lor st.1 target, mapSet (mapIndex st.2 target) target true)
  else (st.1, mapIndex st.2 target)

/-- The digital pass of `InputCore::UpdateEmulatorInputs` (lines
103-123): for every device, every sampled button, every mapped target,
run the edge detector. -/
noncomputable def digitalPass (km : ℕ → List ℕ)
    (inputs : List (List (ℕ × ℝ))) (st : ℕ × List (ℕ × Bool)) :
    ℕ × List (ℕ × Bool) :=
  inputs.foldl
    (fun acc dev => dev.foldl
      (fun acc2 e => (km e.1).foldl (fun acc3 t => edgeStep acc3 e.2 t) acc2)
      acc)
    st

/-- C++ float-to-s16 conversion: truncation toward zero (all modelled
values are in range). -/
noncomputable def floatToS16 (r : ℝ) : ℤ := if r < 0 then ⌈r⌉ else ⌊r⌋

/-- The method `InputCore::UpdateEmulatorInputs` (lines 59-124): under the
pad-state lock, run the analog pass, apply the deadzone, scale and
assign the circle-pad cache (Y sign inverted), then run the digital
pass. -/
noncomputable def UpdateEmulatorInputs (s : SettingsValues)
    (st : EngineState) (inputs : List (List (ℕ × ℝ))) : EngineState :=
  let a := analogPass s st.key_mappings inputs
  let left_stick := ApplyDeadzone a.1 a.2.1 s.pad_circle_deadzone
  let d := digitalPass st.key_mappings inputs (st.pad_state, st.keys_pressed)
  { st with
    circle_pad :=
      (floatToS16 (left_stick.1 * (MAX_CIRCLEPAD_POS : ℝ) * a.2.2),
       floatToS16 (left_stick.2 * (MAX_CIRCLEPAD_POS : ℝ) * (-1) * a.2.2)),
    pad_state := d.1,
    keys_pressed := d.2 }

/-- Scenario A configuration: mapping slot KeyA (= physical id 1) to
circle-pad Up, deadzone 0.1, modifier unset (physical id 0, never
sampled). -/
noncomputable def scenarioA_settings : SettingsValues :=
  { input_mappings := [1]
    mapping_targets := [PAD_CIRCLE_UP]
    pad_circle_modifier := 0
    pad_circle_modifier_scale := 2
    pad_circle_deadzone := 1 / 10 }

/-- Scenario A initial engine state: idle pad, empty latch, centred
stick, the mapping table built from the scenario configuration, one
registered device. -/
def scenarioA_state : EngineState :=
  { pad_state := 0
    keys_pressed := []
    circle_pad := (0, 0)
    key_mappings := BuildKeyMapping [1] [PAD_CIRCLE_UP]
    devices := [1] }

lemma scenarioA_km :
    scenarioA_state.key_mappings = fun q => if q = 1 then [PAD_CIRCLE_UP] else [] := by
  funext q
  simp [scenarioA_state, BuildKeyMapping]

lemma scenarioA_analog_full :
    analogPass scenarioA_settings scenarioA_state.key_mappings [[(1, 1)]]
      = (0, -1, 1) := by
  simp [analogPass, analogEntryStep, scenarioA_km, scenarioA_settings,
    PAD_CIRCLE_UP]

lemma scenarioA_analog_idle :
    analogPass scenarioA_settings scenarioA_state.key_mappings [[(1, 0)]]
      = (0, 0, 1) := by
  simp [analogPass, analogEntryStep, scenarioA_km, scenarioA_settings]

lemma scenarioA_deadzone_full : ApplyDeadzone 0 (-1) (1 / 10) = (0, -1) := by
  have hm : magnitude 0 (-1) = 1 := by
    unfold magnitude
    rw [show ((0:ℝ) * 0 + (-1) * (-1)) = 1 by ring, Real.sqrt_one]
  unfold ApplyDeadzone
  rw [hm]
  norm_num

lemma scenarioA_deadzone_idle : ApplyDeadzone 0 0 (1 / 10) = (0, 0) := by
  have hm : magnitude 0 0 = 0 := by
    unfold magnitude
    rw [show ((0:ℝ) * 0 + 0 * 0) = 0 by ring, Real.sqrt_zero]
  unfold ApplyDeadzone
  rw [hm]
  norm_num

lemma scenarioA_digital (s : ℝ) (st : ℕ × List (ℕ × Bool)) :
    digitalPass scenarioA_state.key_mappings [[(1, s)]] st = st := by
  simp [digitalPass, scenarioA_km, edgeStep, analog_inputs]

lemma floatToS16_zero : floatToS16 0 = 0 := by
  unfold floatToS16
  norm_num

lemma floatToS16_156 : floatToS16 156 = 156 := by
  unfold floatToS16
  rw [if_neg (by norm_num), show ((156:ℝ)) = ((156:ℤ):ℝ) by norm_num,
    Int.floor_intCast]

lemma scenarioA_tick1 :
    UpdateEmulatorInputs scenarioA_settings scenarioA_state [[(1, 1)]]
      = { scenarioA_state with circle_pad := (0, 156) } := by
  unfold UpdateEmulatorInputs
  simp only [scenarioA_analog_full, scenarioA_digital]
  simp [scenarioA_settings, MAX_CIRCLEPAD_POS]
  rw [show ((10:ℝ)⁻¹) = 1 / 10 by norm_num, scenarioA_deadzone_full]
  norm_num [floatToS16_zero, floatToS16_156]

lemma scenarioA_tick2 :
    UpdateEmulatorInputs scenarioA_settings
      { scenarioA_state with circle_pad := (0, 156) } [[(1, 0)]]
      = scenarioA_state := by
  unfold UpdateEmulatorInputs
  have hk : ({ scenarioA_state with circle_pad := ((0:ℤ), (156:ℤ)) }).key_mappings
      = scenarioA_state.key_mappings := rfl
  simp only [hk, scenarioA_analog_idle, scenarioA_digital]
  simp [scenarioA_settings, MAX_CIRCLEPAD_POS]
  rw [show ((10:ℝ)⁻¹) = 1 / 10 by norm_num, scenarioA_deadzone_idle]
  norm_num [floatToS16_zero]
  rfl

/-- C2 counterexample: in Scenario A (one input mapped to circle-pad Up,
deadzone 0.1, modifier unset), one tick of strength 1.0 leaves the
circle-pad cache Y at +MAX_CIRCLEPAD_POS, not -1 * MAX_CIRCLEPAD_POS as
the claim states: the raw Up contribution is -strength and the cache
assignment multiplies by -1 again. -/
theorem scenarioA_y_sign_counterexample :
    (UpdateEmulatorInputs scenarioA_settings scenarioA_state
        [[(1, 1)]]).circle_pad.2 = MAX_CIRCLEPAD_POS ∧
    ¬ (UpdateEmulatorInputs scenarioA_settings scenarioA_state
        [[(1, 1)]]).circle_pad.2 = -1 * MAX_CIRCLEPAD_POS := by
  have h2 : (UpdateEmulatorInputs scenarioA_settings scenarioA_state
      [[(1, 1)]]).circle_pad.2 = (156 : ℤ) := by
    rw [scenarioA_tick1]
  refine ⟨by rw [h2]; rfl, ?_⟩
  rw [h2]
  norm_num [MAX_CIRCLEPAD_POS]

/-- C2 amended: in Scenario A, one tick of strength 1.0 sets the
circle-pad cache to (0, +MAX_CIRCLEPAD_POS) — the Y axis is inverted at
assignment, so Up yields a positive cache Y — and a following tick of
strength 0.0 returns the cache to (0, 0). -/
theorem scenarioA_circle_pad_ticks :
    (UpdateEmulatorInputs scenarioA_settings scenarioA_state
        [[(1, 1)]]).circle_pad = (0, MAX_CIRCLEPAD_POS) ∧
    (UpdateEmulatorInputs scenarioA_settings
        (UpdateEmulatorInputs scenarioA_settings scenarioA_state [[(1, 1)]])
        [[(1, 0)]]).circle_pad = (0, 0) := by
  rw [scenarioA_tick1, scenarioA_tick2]
  exact ⟨rfl, rfl⟩

/-- Scenario B configuration: two physical sources (ids 1 and 2) both
mapped to circle-pad Right, modifier unset. -/
noncomputable def scenarioB_settings : SettingsValues :=
  { input_mappings := [1, 2]
    mapping_targets := [PAD_CIRCLE_RIGHT, PAD_CIRCLE_RIGHT]
    pad_circle_modifier := 0
    pad_circle_modifier_scale := 2
    pad_circle_deadzone := 1 / 10 }

/-- C5: with two physical sources both mapped to circle-pad Right
reporting strengths 0.3 then 0.9 in iteration order within one tick,
the raw X handed to the deadzone normalizer is 0.9 (last write wins in
iteration order), not the sum 1.2. -/
theorem scenarioB_last_write_wins :
    (analogPass scenarioB_settings
        (BuildKeyMapping [1, 2] [PAD_CIRCLE_RIGHT, PAD_CIRCLE_RIGHT])
        [[(1, 3 / 10), (2, 9 / 10)]]).1 = 9 / 10 ∧
    ¬ (analogPass scenarioB_settings
        (BuildKeyMapping [1, 2] [PAD_CIRCLE_RIGHT, PAD_CIRCLE_RIGHT])
        [[(1, 3 / 10), (2, 9 / 10)]]).1 = 3 / 10 + 9 / 10 := by
  have h : (analogPass scenarioB_settings
      (BuildKeyMapping [1, 2] [PAD_CIRCLE_RIGHT, PAD_CIRCLE_RIGHT])
      [[(1, 3 / 10), (2, 9 / 10)]]).1 = 9 / 10 := by
    norm_num [analogPass, analogEntryStep, BuildKeyMapping,
      scenarioB_settings, PAD_CIRCLE_RIGHT, PAD_CIRCLE_UP, PAD_CIRCLE_DOWN,
      PAD_CIRCLE_LEFT]
  refine ⟨h, ?_⟩
  rw [h]
  norm_num

/-- C1 counterexample: an engine with one registered device and a
pressed latch entry; `ReloadSettings` rebuilds devices and the mapping
table but leaves `keys_pressed` untouched, so the latch is not empty
afterwards. -/
theorem reload_latch_not_reset_counterexample :
    ¬ (ReloadSettings scenarioA_settings
        { scenarioA_state with keys_pressed := [(1, true)] }).keys_pressed
      = [] := by
  intro h
  rw [show (ReloadSettings scenarioA_settings
      { scenarioA_state with keys_pressed := [(1, true)] }).keys_pressed
      = [(1, true)] from rfl] at h
  exact List.cons_ne_nil _ _ h

/-- C1 amended: `ReloadSettings` leaves the pressed latch exactly as it
was (the code never clears `keys_pressed`); on an engine with at least
one registered device the latch is therefore not reset to empty. -/
theorem reload_preserves_latch (s : SettingsValues) (st : EngineState) :
    (ReloadSettings s st).keys_pressed = st.keys_pressed := by
  unfold ReloadSettings
  by_cases h : st.devices = []
  · rw [if_pos h]
  · rw [if_neg h]

/-- C8: `ReloadSettings` on an engine with zero registered devices is a
no-op: the whole state — device registry, mapping table, pressed latch,
pad state and circle-pad cache — is returned unchanged. -/
theorem reload_no_devices_noop (s : SettingsValues) (st : EngineState)
    (h : st.devices = []) : ReloadSettings s st = st := by
  unfold ReloadSettings
  rw [if_pos h]

/-- Witness for C8 at a concrete engine state with no devices. -/
theorem reload_no_devices_noop_witness :
    ReloadSettings scenarioA_settings
      { scenarioA_state with devices := [] }
      = { scenarioA_state with devices := [] } :=
  reload_no_devices_noop scenarioA_settings
    { scenarioA_state with devices := [] } rfl

lemma lookup_mapSet_self (m : List (ℕ × Bool)) (k : ℕ) (v : Bool) :
    (mapSet m k v).lookup k = some v := by
  induction m with
  | nil => simp [mapSet, List.lookup]
  | cons a rest ih =>
    obtain ⟨x, b⟩ := a
    by_cases hx : x = k
    · subst hx
      simp only [mapSet, if_pos rfl, List.lookup, beq_self_eq_true]
    · have hkx : (k == x) = false := beq_eq_false_iff_ne.mpr fun h => hx h.symm
      simp only [mapSet, if_neg hx, List.lookup, hkx]
      exact ih

lemma lookup_append_of_none (m l : List (ℕ × Bool)) (k : ℕ)
    (h : m.lookup k = none) : (m ++ l).lookup k = l.lookup k := by
  induction m with
  | nil => simp
  | cons a rest ih =>
    obtain ⟨x, b⟩ := a
    cases hkx : (k == x) with
    | true =>
      exfalso
      simp only [List.lookup, hkx] at h
      exact Option.noConfusion h
    | false =>
      have h2 : List.lookup k rest = none := by
        simpa only [List.lookup, hkx] using h
      rw [List.cons_append]
      simp only [List.lookup, hkx]
      exact ih h2

lemma lookup_mapIndex_self (m : List (ℕ × Bool)) (k : ℕ) :
    (mapIndex m k).lookup k = some (mapGetD m k) := by
  unfold mapIndex mapGetD
  cases h : m.lookup k with
  | some b => simp [h]
  | none => simp [h, lookup_append_of_none m _ k h, List.lookup]

lemma mapGetD_mapIndex_self (m : List (ℕ × Bool)) (k : ℕ) :
    mapGetD (mapIndex m k) k = mapGetD m k := by
  unfold mapGetD
  rw [lookup_mapIndex_self]
  rfl

lemma mapGetD_mapSet_self (m : List (ℕ × Bool)) (k : ℕ) (v : Bool) :
    mapGetD (mapSet m k v) k = v := by
  unfold mapGetD
  rw [lookup_mapSet_self]
  rfl

lemma mapIndex_of_isSome (m : List (ℕ × Bool)) (k : ℕ)
    (h : (m.lookup k).isSome) : mapIndex m k = m := by
  unfold mapIndex
  rw [if_pos h]

lemma mapIndex_idem (m : List (ℕ × Bool)) (k : ℕ) :
    mapIndex (mapIndex m k) k = mapIndex m k :=
  mapIndex_of_isSome _ _ (by rw [lookup_mapIndex_self]; rfl)

lemma mapIndex_mapSet_self (m : List (ℕ × Bool)) (k : ℕ) (v : Bool) :
    mapIndex (mapSet m k v) k = mapSet m k v :=
  mapIndex_of_isSome _ _ (by rw [lookup_mapSet_self]; rfl)

/-- One edge-detector step is idempotent: repeating it with the same
strength and target leaves the pad bit and latch untouched. -/
lemma edgeStep_idem (st : ℕ × List (ℕ × Bool)) (s : ℝ) (t : ℕ) :
    edgeStep (edgeStep st s t) s t = edgeStep st s t := by
  by_cases ha : t ∈ analog_inputs
  · simp [edgeStep, ha]
  · rcases lt_or_le |s| input_detect_threshold with hlt | hge
    · cases hb : mapGetD st.2 t with
      | true =>
        have h1 : edgeStep st s t
            = (Nat.land st.1 (u32not t), mapSet (mapIndex st.2 t) t false) := by
          unfold edgeStep
          rw [if_neg ha, if_pos ⟨hlt, by rw [mapGetD_mapIndex_self, hb]⟩]
        rw [h1]
        unfold edgeStep
        rw [if_neg ha,
          if_neg (by
            rw [show ((Nat.land st.1 (u32not t),
                mapSet (mapIndex st.2 t) t false)).2
                = mapSet (mapIndex st.2 t) t false from rfl,
              mapGetD_mapIndex_self, mapGetD_mapSet_self]
            exact fun h => absurd h.2 (by simp)),
          if_neg (by exact fun h => absurd h.1 (not_le.mpr hlt))]
        rw [show ((Nat.land st.1 (u32not t),
            mapSet (mapIndex st.2 t) t false)).2
            = mapSet (mapIndex st.2 t) t false from rfl,
          mapIndex_mapSet_self]
      | false =>
        have h1 : edgeStep st s t = (st.1, mapIndex st.2 t) := by
          unfold edgeStep
          rw [if_neg ha,
            if_neg (by
              rw [mapGetD_mapIndex_self, hb]
              exact fun h => absurd h.2 (by simp)),
            if_neg (by exact fun h => absurd h.1 (not_le.mpr hlt))]
        rw [h1]
        unfold edgeStep
        rw [if_neg ha,
          if_neg (by
            rw [show ((st.1, mapIndex st.2 t)).2 = mapIndex st.2 t from rfl,
              mapGetD_mapIndex_self, mapGetD_mapIndex_self, hb]
            exact fun h => absurd h.2 (by simp)),
          if_neg (by exact fun h => absurd h.1 (not_le.mpr hlt))]
        rw [show ((st.1, mapIndex st.2 t)).2 = mapIndex st.2 t from rfl,
          mapIndex_idem]
    · cases hb : mapGetD st.2 t with
      | false =>
        have h1 : edgeStep st s t
            = (Nat.lor st.1 t, mapSet (mapIndex st.2 t) t true) := by
          unfold edgeStep
          rw [if_neg ha,
            if_neg (by exact fun h => absurd h.1 (not_lt.mpr hge)),
            if_pos ⟨hge, by rw [mapGetD_mapIndex_self, hb]⟩]
        rw [h1]
        unfold edgeStep
        rw [if_neg ha,
          if_neg (by exact fun h => absurd h.1 (not_lt.mpr hge)),
          if_neg (by
            rw [show ((Nat.lor st.1 t, mapSet (mapIndex st.2 t) t true)).2
                = mapSet (mapIndex st.2 t) t true from rfl,
              mapGetD_mapIndex_self, mapGetD_mapSet_self]
            exact fun h => absurd h.2 (by simp))]
        rw [show ((Nat.lor st.1 t, mapSet (mapIndex st.2 t) t true)).2
            = mapSet (mapIndex st.2 t) t true from rfl,
          mapIndex_mapSet_self]
      | true =>
        have h1 : edgeStep st s t = (st.1, mapIndex st.2 t) := by
          unfold edgeStep
          rw [if_neg ha,
            if_neg (by exact fun h => absurd h.1 (not_lt.mpr hge)),
            if_neg (by
              rw [mapGetD_mapIndex_self, hb]
              exact fun h => absurd h.2 (by simp))]
        rw [h1]
        unfold edgeStep
        rw [if_neg ha,
          if_neg (by exact fun h => absurd h.1 (not_lt.mpr hge)),
          if_neg (by
            rw [show ((st.1, mapIndex st.2 t)).2 = mapIndex st.2 t from rfl,
              mapGetD_mapIndex_self, mapGetD_mapIndex_self, hb]
            exact fun h => absurd h.2 (by simp))]
        rw [show ((st.1, mapIndex st.2 t)).2 = mapIndex st.2 t from rfl,
          mapIndex_idem]

lemma digitalPass_single (p t : ℕ) (s : ℝ) (st : ℕ × List (ℕ × Bool)) :
    digitalPass (BuildKeyMapping [p] [t]) [[(p, s)]] st = edgeStep st s t := by
  simp [digitalPass, BuildKeyMapping]

/-- C4: edge-detector idempotence.  With one physical input mapped to a
digital target, running the digital pass of update N ≥ 1 consecutive
times with the same strength equals running it once: any bit transition
happens on the first pass only, and repeats change nothing. -/
theorem digital_pass_idempotent (p t : ℕ) (s : ℝ)
    (st : ℕ × List (ℕ × Bool)) (n : ℕ)
    (ht : t ∉ analog_inputs) (hn : 1 ≤ n) :
    (fun σ => digitalPass (BuildKeyMapping [p] [t]) [[(p, s)]] σ)^[n] st
      = digitalPass (BuildKeyMapping [p] [t]) [[(p, s)]] st := by
  obtain ⟨m, rfl⟩ : ∃ m, n = m + 1 := ⟨n - 1, by omega⟩
  rw [Function.iterate_succ_apply]
  apply Function.iterate_fixed
  show digitalPass (BuildKeyMapping [p] [t]) [[(p, s)]]
      (digitalPass (BuildKeyMapping [p] [t]) [[(p, s)]] st)
    = digitalPass (BuildKeyMapping [p] [t]) [[(p, s)]] st
  rw [digitalPass_single, digitalPass_single, edgeStep_idem]

/-- Witness for C4 at target bit 1 (a digital target), physical id 7,
strength 1, idle initial state, N = 2. -/
theorem digital_pass_idempotent_witness :
    (1 : ℕ) ∉ analog_inputs ∧
    (fun σ => digitalPass (BuildKeyMapping [7] [1]) [[(7, 1)]] σ)^[2] (0, [])
      = digitalPass (BuildKeyMapping [7] [1]) [[(7, 1)]] (0, []) :=
  ⟨by decide, digital_pass_idempotent 7 1 1 (0, []) 2 (by decide) (by norm_num)⟩

/-- One sampled entry of the `InputCore::DetectInput` polling loop
(lines 228-233): report a fresh above-threshold press whose baseline is
inactive; re-arm the baseline of a held input that dropped below the
threshold; otherwise continue.  The accumulator is either a detected
physical id or the current baseline map. -/
noncomputable def scanEntry (acc : ℕ ⊕ List (ℕ × Bool)) (e : ℕ × ℝ) :
    ℕ ⊕ List (ℕ × Bool) :=
  match acc with
  | Sum.inl j => Sum.inl j
  | Sum.inr m =>
    if e.2 > input_detect_threshold ∧ mapGetD m e.1 = false then Sum.inl e.1
    else if e.2 < input_detect_threshold ∧ mapGetD m e.1 = true then
      Sum.inr (mapSet m e.1 false)
    else Sum.inr m

/-- One iteration of the detection loop: poll every device in order and
scan all its entries (a detection made earlier in the iteration is
carried through unchanged, as the C++ `return` would). -/
noncomputable def scanRound (acc : ℕ ⊕ List (ℕ × Bool))
    (round : List (List (ℕ × ℝ))) : ℕ ⊕ List (ℕ × Bool) :=
  round.foldl (fun a dev => dev.foldl scanEntry a) acc

/-- The bounded polling loop of `InputCore::DetectInput`: the wall-clock
timeout is modelled as the finite list of poll rounds the clock admits;
exhausting it is the `duration >= max_time` break, returning the empty
(default-constructed) mapping, modelled as `none`. -/
noncomputable def detectLoop (m : List (ℕ × Bool)) :
    List (List (List (ℕ × ℝ))) → Option ℕ
  | [] => none
  | r :: rest =>
    match scanRound (Sum.inr m) r with
    | Sum.inl j => some j
    | Sum.inr m2 => detectLoop m2 rest

/-- The baseline sample of `InputCore::DetectInput` (lines 218-224):
for every device's snapshot, `emplace` each input's "already active"
boolean (strength above threshold); the first occurrence wins. -/
noncomputable def buildBaseline (samples : List (List (ℕ × ℝ))) :
    List (ℕ × Bool) :=
  samples.foldl
    (fun m dev => dev.foldl
      (fun m2 e => mapEmplace m2 e.1
        (if e.2 > input_detect_threshold then true else false)) m)
    []

/-- The method `InputCore::DetectInput` (lines 209-237): take the baseline sample,
then poll until an input is detected or the rounds (the timeout) run
out. -/
noncomputable def DetectInput (initSamples : List (List (ℕ × ℝ)))
    (rounds : List (List (List (ℕ × ℝ)))) : Option ℕ :=
  detectLoop (buildBaseline initSamples) rounds

lemma lookup_mapSet_ne (m : List (ℕ × Bool)) (k k2 : ℕ) (v : Bool)
    (h : k ≠ k2) : (mapSet m k2 v).lookup k = m.lookup k := by
  induction m with
  | nil =>
    have hkx : (k == k2) = false := beq_eq_false_iff_ne.mpr h
    simp [mapSet, List.lookup, hkx]
  | cons a rest ih =>
    obtain ⟨x, b⟩ := a
    by_cases hx : x = k2
    · subst hx
      have hkx : (k == x) = false := beq_eq_false_iff_ne.mpr h
      simp only [mapSet, if_pos rfl, List.lookup, hkx]
    · simp only [mapSet, if_neg hx, List.lookup]
      cases hkx : (k == x) with
      | true => rfl
      | false => exact ih

lemma mapGetD_mapSet_ne (m : List (ℕ × Bool)) (k k2 : ℕ) (v : Bool)
    (h : k ≠ k2) : mapGetD (mapSet m k2 v) k = mapGetD m k := by
  unfold mapGetD
  rw [lookup_mapSet_ne m k k2 v h]

lemma scanEntry_protected (j : ℕ) (a : ℕ ⊕ List (ℕ × Bool)) (e : ℕ × ℝ)
    (hj : a ≠ Sum.inl j ∧ ∀ m, a = Sum.inr m → mapGetD m j = true)
    (he : e.1 = j → ¬ e.2 < input_detect_threshold) :
    scanEntry a e ≠ Sum.inl j ∧
      ∀ m, scanEntry a e = Sum.inr m → mapGetD m j = true := by
  match a with
  | Sum.inl i =>
    simpa only [scanEntry] using hj
  | Sum.inr m =>
    have hm : mapGetD m j = true := hj.2 m rfl
    by_cases h1 : e.2 > input_detect_threshold ∧ mapGetD m e.1 = false
    · have hne : e.1 ≠ j := by
        intro hh
        rw [hh, hm] at h1
        exact Bool.noConfusion h1.2
      simp only [scanEntry, if_pos h1]
      exact ⟨fun hc => hne (Sum.inl.inj hc), fun m2 hc => Sum.noConfusion hc⟩
    · by_cases h2 : e.2 < input_detect_threshold ∧ mapGetD m e.1 = true
      · have hne : e.1 ≠ j := fun hh => (he hh) h2.1
        simp only [scanEntry, if_neg h1, if_pos h2]
        refine ⟨fun hc => Sum.noConfusion hc, fun m2 hc => ?_⟩
        rw [← Sum.inr.inj hc, mapGetD_mapSet_ne m j e.1 false
          (fun hh => hne hh.symm)]
        exact hm
      · simp only [scanEntry, if_neg h1, if_neg h2]
        refine ⟨fun hc => Sum.noConfusion hc, fun m2 hc => ?_⟩
        rw [← Sum.inr.inj hc]
        exact hm

lemma foldl_scanEntry_protected (j : ℕ) (dev : List (ℕ × ℝ)) :
    ∀ a : ℕ ⊕ List (ℕ × Bool),
    (a ≠ Sum.inl j ∧ ∀ m, a = Sum.inr m → mapGetD m j = true) →
    (∀ e ∈ dev, e.1 = j → ¬ e.2 < input_detect_threshold) →
    (dev.foldl scanEntry a ≠ Sum.inl j ∧
      ∀ m, dev.foldl scanEntry a = Sum.inr m → mapGetD m j = true) := by
  induction dev with
  | nil =>
    intro a hj _
    simpa using hj
  | cons e rest ih =>
    intro a hj hd
    rw [List.foldl_cons]
    exact ih _ (scanEntry_protected j a e hj (hd e (by simp)))
      (fun e2 he2 => hd e2 (by simp [he2]))

lemma scanRound_protected (j : ℕ) (r : List (List (ℕ × ℝ))) :
    ∀ a : ℕ ⊕ List (ℕ × Bool),
    (a ≠ Sum.inl j ∧ ∀ m, a = Sum.inr m → mapGetD m j = true) →
    (∀ dev ∈ r, ∀ e ∈ dev, e.1 = j → ¬ e.2 < input_detect_threshold) →
    (scanRound a r ≠ Sum.inl j ∧
      ∀ m, scanRound a r = Sum.inr m → mapGetD m j = true) := by
  induction r with
  | nil =>
    intro a hj _
    simpa [scanRound] using hj
  | cons dev rest ih =>
    intro a hj hr
    unfold scanRound
    rw [List.foldl_cons]
    exact ih _ (foldl_scanEntry_protected j dev a hj (hr dev (by simp)))
      (fun d2 hd2 => hr d2 (by simp [hd2]))

lemma detectLoop_protected (j : ℕ) :
    ∀ (rounds : List (List (List (ℕ × ℝ)))) (m : List (ℕ × Bool)),
    mapGetD m j = true →
    (∀ r ∈ rounds, ∀ dev ∈ r, ∀ e ∈ dev,
      e.1 = j → ¬ e.2 < input_detect_threshold) →
    detectLoop m rounds ≠ some j := by
  intro rounds
  induction rounds with
  | nil =>
    intro m _ _
    simp [detectLoop]
  | cons r rest ih =>
    intro m hm hr
    have hP := scanRound_protected j r (Sum.inr m)
      ⟨fun hc => Sum.noConfusion hc,
       fun m2 hc => by rw [← Sum.inr.inj hc]; exact hm⟩
      (hr r (by simp))
    unfold detectLoop
    cases hs : scanRound (Sum.inr m) r with
    | inl i =>
      intro hc
      rw [hs] at hP
      exact hP.1 (by rw [Option.some.injEq] at hc; rw [hc])
    | inr m2 =>
      rw [hs] at hP
      exact ih m2 (hP.2 m2 rfl) (fun r2 hr2 => hr r2 (by simp [hr2]))

/-- C6: baseline suppression of `DetectInput`.  If an input's baseline
sample was above the detection threshold and none of its polled
strengths during the loop ever drops below the threshold (so its
baseline is never re-armed), `DetectInput` never returns it. -/
theorem detect_baseline_suppression (init : List (List (ℕ × ℝ)))
    (rounds : List (List (List (ℕ × ℝ)))) (j : ℕ)
    (hb : mapGetD (buildBaseline init) j = true)
    (hr : ∀ r ∈ rounds, ∀ dev ∈ r, ∀ e ∈ dev,
      e.1 = j → ¬ e.2 < input_detect_threshold) :
    DetectInput init rounds ≠ some j :=
  detectLoop_protected j rounds (buildBaseline init) hb hr

/-- Witness for C6: a button held at strength 1 from the baseline on is
never reported. -/
theorem detect_baseline_suppression_witness :
    DetectInput [[(1, 1)]] [[[(1, 1)]]] ≠ some 1 :=
  detect_baseline_suppression [[(1, 1)]] [[[(1, 1)]]] 1
    (by norm_num [buildBaseline, mapEmplace, mapGetD, List.lookup,
      input_detect_threshold])
    (by
      intro r hr dev hdev e he hj
      simp only [List.mem_singleton] at hr
      subst hr
      simp only [List.mem_singleton] at hdev
      subst hdev
      simp only [List.mem_singleton] at he
      subst he
      norm_num [input_detect_threshold])

lemma scanEntry_no_detect (a : ℕ ⊕ List (ℕ × Bool)) (e : ℕ × ℝ)
    (ha : ∃ m, a = Sum.inr m) (he : e.2 ≤ input_detect_threshold) :
    ∃ m2, scanEntry a e = Sum.inr m2 := by
  obtain ⟨m, rfl⟩ := ha
  have h1 : ¬ (e.2 > input_detect_threshold ∧ mapGetD m e.1 = false) :=
    fun h => absurd h.1 (not_lt.mpr he)
  by_cases h2 : e.2 < input_detect_threshold ∧ mapGetD m e.1 = true
  · exact ⟨mapSet m e.1 false, by simp only [scanEntry, if_neg h1, if_pos h2]⟩
  · exact ⟨m, by simp only [scanEntry, if_neg h1, if_neg h2]⟩

lemma foldl_scanEntry_no_detect (dev : List (ℕ × ℝ)) :
    ∀ a : ℕ ⊕ List (ℕ × Bool), (∃ m, a = Sum.inr m) →
    (∀ e ∈ dev, e.2 ≤ input_detect_threshold) →
    ∃ m2, dev.foldl scanEntry a = Sum.inr m2 := by
  induction dev with
  | nil =>
    intro a ha _
    simpa using ha
  | cons e rest ih =>
    intro a ha hd
    rw [List.foldl_cons]
    exact ih _ (scanEntry_no_detect a e ha (hd e (by simp)))
      (fun e2 he2 => hd e2 (by simp [he2]))

lemma scanRound_no_detect (r : List (List (ℕ × ℝ))) :
    ∀ a : ℕ ⊕ List (ℕ × Bool), (∃ m, a = Sum.inr m) →
    (∀ dev ∈ r, ∀ e ∈ dev, e.2 ≤ input_detect_threshold) →
    ∃ m2, scanRound a r = Sum.inr m2 := by
  induction r with
  | nil =>
    intro a ha _
    simpa [scanRound] using ha
  | cons dev rest ih =>
    intro a ha hr
    unfold scanRound
    rw [List.foldl_cons]
    exact ih _ (foldl_scanEntry_no_detect dev a ha (hr dev (by simp)))
      (fun d2 hd2 => hr d2 (by simp [hd2]))

lemma detectLoop_timeout (rounds : List (List (List (ℕ × ℝ)))) :
    ∀ m : List (ℕ × Bool),
    (∀ r ∈ rounds, ∀ dev ∈ r, ∀ e ∈ dev, e.2 ≤ input_detect_threshold) →
    detectLoop m rounds = none := by
  induction rounds with
  | nil =>
    intro m _
    simp [detectLoop]
  | cons r rest ih =>
    intro m hr
    obtain ⟨m2, hm2⟩ := scanRound_no_detect r (Sum.inr m) ⟨m, rfl⟩
      (hr r (by simp))
    unfold detectLoop
    rw [hm2]
    exact ih m2 (fun r2 hr2 => hr r2 (by simp [hr2]))

/-- C9: if no polled strength ever exceeds the detection threshold, the
detection loop runs through every poll round the timeout admits and
then returns the empty (no-input-detected) mapping — a normal terminal
outcome, not a failure or an endless loop. -/
theorem detect_timeout_returns_none (init : List (List (ℕ × ℝ)))
    (rounds : List (List (List (ℕ × ℝ))))
    (h : ∀ r ∈ rounds, ∀ dev ∈ r, ∀ e ∈ dev,
      e.2 ≤ input_detect_threshold) :
    DetectInput init rounds = none :=
  detectLoop_timeout rounds (buildBaseline init) h

/-- Witness for C9: one poll round with a strength that never crosses
the threshold yields no detection. -/
theorem detect_timeout_returns_none_witness :
    DetectInput [[(1, 1)]] [[[(1, 1 / 5)]]] = none :=
  detect_timeout_returns_none [[(1, 1)]] [[[(1, 1 / 5)]]]
    (by
      intro r hr dev hdev e he
      simp only [List.mem_singleton] at hr
      subst hr
      simp only [List.mem_singleton] at hdev
      subst hdev
      simp only [List.mem_singleton] at he
      subst he
      norm_num [input_detect_threshold])
